import Mathlib

/-!
Verification of the fragrance-suggestion server (single-file Express app).

The JavaScript source is shallowly embedded: every pure helper of the server
(`parsePrice`, `norm`, `buildPerfumeQueryFromNotes`, `buildSiteQuery`, the
body of `scrapeBasic`, the credential check of `googleSearch`, and the
suggestion assembly of the `/api/search` route) is translated into an
executable Lean function.  JavaScript strings are modelled as Lean `String`
(a list of characters; `String.length` counts characters where JS counts
UTF-16 units — identical on the ASCII data involved here).  JavaScript
`null`/`undefined`-able values are modelled as `Option`.  The external
collaborators (axios fetch, cheerio HTML querying, the Ollama model call)
are modelled as explicit inputs: a `FetchOutcome` value for one HTTP fetch
and a `Page` record of selector-query capabilities for one parsed document.
-/

set_option autoImplicit false

/-! Helper lemmas about the embedded operations. -/

/-- JS `String.prototype.toLowerCase()` restricted to the character-wise
lowering that agrees with it on ASCII (the only data the server handles). -/
def jsLower (s : String) : String := ⟨s.data.map Char.toLower⟩

/-- The whitespace class used for JS `\s` and `trim()`; `Char.isWhitespace`
covers space, tab, CR and LF, which is what the server's data contains. -/
def wsChar (c : Char) : Bool := c.isWhitespace

/-- Character-list form of JS `String.prototype.trim()`: drop leading and
trailing whitespace. -/
def trimChars (l : List Char) : List Char :=
  ((l.dropWhile wsChar).reverse.dropWhile wsChar).reverse

/-- JS `s.trim()`. -/
def jsTrim (s : String) : String := ⟨trimChars s.data⟩

/-- JS `s.replace(/\s+/g, ' ')` on a character list: every maximal run of
whitespace becomes a single space.  The boolean flag records whether the
previous character belonged to a whitespace run. -/
def collapseChars : List Char → Bool → List Char
  | [], _ => []
  | c :: rest, prevWs =>
    if wsChar c then
      if prevWs then collapseChars rest true else ' ' :: collapseChars rest true
    else c :: collapseChars rest false

/-- JS `s.replace(/\s+/g, ' ')`. -/
def jsCollapseWs (s : String) : String := ⟨collapseChars s.data false⟩

/-- `Array.from(new Set(l))`, keeping the first occurrence of each element
(JS `Set` iteration order is insertion order); `seen` accumulates the
elements already emitted. -/
def dedupFirstAux (seen : List String) : List String → List String
  | [] => []
  | s :: rest =>
    if s ∈ seen then dedupFirstAux seen rest
    else s :: dedupFirstAux (s :: seen) rest

/-- JS `Array.from(new Set(l))`. -/
def dedupFirst (l : List String) : List String := dedupFirstAux [] l

/-- The currency-symbol alternation `(\$|€|£)` of `parsePrice`. -/
def isSym (c : Char) : Bool := c == '$' || c == '€' || c == '£'

/-- The `\s?` part of the price regex: optionally consume one whitespace
character.  (If the consumed character is not followed by a digit the whole
match fails either way, so the regex's backtracking is immaterial.) -/
def skipOneWs : List Char → List Char
  | [] => []
  | c :: r => if wsChar c then r else c :: r

/-- The optional decimal group `(?:[.,][0-9]{2})?` of the price regex:
a separator followed by exactly two digits, if present at the head. -/
def decPart (l : List Char) : List Char :=
  match l with
  | s :: a :: b :: _ =>
    if (s = '.' ∨ s = ',') ∧ a.isDigit ∧ b.isDigit then [s, a, b] else []
  | _ => []

/-- One attempt of the price regex `(\$|€|£)\s?([0-9]+(?:[.,][0-9]{2})?)`
anchored at the current position: the currency symbol, then an optional
space, then a greedy non-empty digit run, then the optional two-digit
decimal group.  Returns the symbol and the matched amount. -/
def matchPriceAt : List Char → Option (Char × List Char)
  | [] => none
  | c :: rest =>
    if isSym c then
      let rest2 := skipOneWs rest
      let ds := rest2.takeWhile Char.isDigit
      if ds.isEmpty then none
      else some (c, ds ++ decPart (rest2.drop ds.length))
    else none

/-- Leftmost match of the price regex: try every position left to right. -/
def findPrice : List Char → Option (Char × List Char)
  | [] => none
  | c :: rest =>
    match matchPriceAt (c :: rest) with
    | some r => some r
    | none => findPrice rest

/-- JS `s.replace(',', '.')`: only the first comma is replaced. -/
def replaceFirstComma : List Char → List Char
  | [] => []
  | c :: rest => if c = ',' then '.' :: rest else c :: replaceFirstComma rest

/-- `parsePrice` (src/unnamed/part_000 lines 36-42): `null` for a falsy
input, otherwise collapse whitespace runs, find the first regex match and
return symbol ++ amount with the first `,` turned into `.`. -/
def parsePrice (text : String) : Option String :=
  if text = "" then none
  else
    match findPrice (collapseChars text.data false) with
    | none => none
    | some (sym, amt) => some ⟨replaceFirstComma (sym :: amt)⟩

/-- The parsed shape the note-extraction cascade hands to normalization:
the `top`/`middle`/`base` keys of whatever JSON (or heuristic fallback)
produced it; a missing key is `none` (JS `undefined`, absorbed by
`(arr || [])` in `norm`). -/
structure ParsedNotes where
  top : Option (List String)
  middle : Option (List String)
  base : Option (List String)

/-- The Note Set data model: three bucket sequences. -/
structure NoteSet where
  top : List String
  middle : List String
  base : List String
deriving DecidableEq, Repr

/-- `norm` (src/unnamed/part_000 line 147):
`Array.from(new Set((arr || []).map(s => s.toLowerCase().trim()))).filter(Boolean).slice(0, 8)`. -/
def norm (arr : Option (List String)) : List String :=
  (((dedupFirst ((arr.getD []).map (fun s => jsTrim (jsLower s)))).filter
    (fun s => s != "")).take 8)

/-- The final normalization step of `ollamaNotesFromScene`
(src/unnamed/part_000 lines 148-152), applied to the parsed reply on every
parsing path. -/
def normalizeParsedNotes (p : ParsedNotes) : NoteSet :=
  { top := norm p.top, middle := norm p.middle, base := norm p.base }

/-- JS `a.join(' ')`. -/
def joinSpace : List String → String
  | [] => ""
  | [s] => s
  | s :: rest => s ++ " " ++ joinSpace rest

/-- `buildPerfumeQueryFromNotes` (src/unnamed/part_000 lines 179-187).
The fallback expression `notes.middle || notes.top || notes.base || []`
evaluates to `notes.middle` whenever the `middle` field is present, because
a JS array — even an empty one — is truthy; on a Note Set (all three
buckets present) it is therefore just `notes.middle`. -/
def buildPerfumeQueryFromNotes (notes : NoteSet) : String :=
  let top := joinSpace (notes.top.take 3)
  let mid := joinSpace (notes.middle.take 3)
  let base := joinSpace (notes.base.take 3)
  let q := jsTrim (jsCollapseWs (top ++ " " ++ mid ++ " " ++ base ++ " perfume with price"))
  if q.length < 10 then joinSpace notes.middle ++ " perfume" else q

/-- Environment-derived configuration of the search client; each credential
defaults to the empty string when the variable is unset, so "missing"
means empty. -/
structure SearchConfig where
  apiKey : String
  cx : String
  domains : List String

/-- JS `sep.join(l)` for an arbitrary separator, used by `buildSiteQuery`. -/
def joinWith (sep : String) : List String → String
  | [] => ""
  | [s] => s
  | s :: rest => s ++ sep ++ joinWith sep rest

/-- `buildSiteQuery` (src/unnamed/part_000 lines 30-34). -/
def buildSiteQuery (cfg : SearchConfig) (query : String) : String :=
  if cfg.domains.isEmpty then query
  else
    query ++ " (" ++ joinWith " OR " (cfg.domains.map (fun d => "site:" ++ d)) ++ ")"

/-- The HTTP request `googleSearch` issues to the Custom Search endpoint
(its `params` object), modelled as a record instead of a network call. -/
structure SearchRequest where
  key : String
  cx : String
  q : String
  num : Nat
  safe : String
  lr : String
deriving DecidableEq, Repr

/-- `googleSearch` (src/unnamed/part_000 lines 155-170) up to the network
boundary: the credential check, then the request that would be issued.
`Except.error` models the thrown configuration error; in that case no
`SearchRequest` exists, i.e. no network request is built. -/
def googleSearch (cfg : SearchConfig) (query : String) (num : Nat) :
    Except String SearchRequest :=
  if cfg.apiKey = "" ∨ cfg.cx = "" then
    Except.error "Missing GOOGLE_API_KEY or GOOGLE_CSE_CX in environment."
  else
    Except.ok
      { key := cfg.apiKey, cx := cfg.cx, q := buildSiteQuery cfg query,
        num := num, safe := "active", lr := "lang_en" }

/-- The cheerio document handle `$`, reduced to the four query shapes
`scrapeBasic` performs on it.  A field application `page.textAll sel`
models `$(sel).text()` and so on; the selector strings are passed exactly
as they appear in the source. -/
structure Page where
  /-- `$(sel).attr('content')`: the attribute of the first matched element,
  `none` when no element matches or the attribute is absent. -/
  attrContent : String → Option String
  /-- `$(sel).text()`: concatenated text of every matched element. -/
  textAll : String → String
  /-- `$(sel).first().text()`: text of the first matched element, `""` when
  nothing matches. -/
  firstText : String → String
  /-- the trimmed-later raw text of each matched element in document order,
  as visited by `$(sel).each(...)`. -/
  elementTexts : String → List String

/-- The body axios delivered: textual (a string) or some non-string value
(e.g. JSON already parsed into an object). -/
inductive BodyData where
  | text (s : String)
  | nonText
deriving DecidableEq

/-- The outcome of the single `axios.get` of `scrapeBasic` together with
everything after it that can throw: `exn msg` models any exception during
fetch or parse, rendered through `String(e?.message || e)`; `response`
carries the body (`none` for JS `null`/`undefined`) and the final
redirected URL `request?.res?.responseUrl` (`none` when unavailable). -/
inductive FetchOutcome where
  | exn (msg : String)
  | response (data : Option BodyData) (responseUrl : Option String)

/-- The Scrape Result record.  Fields that a failure object simply lacks
are `none`/`[]` by default, matching JS `undefined` field reads. -/
structure ScrapeResult where
  url : String
  ok : Bool
  title : Option String := none
  desc : Option String := none
  price : Option String := none
  notes : List String := []
  error : Option String := none
deriving DecidableEq, Repr

/-- JS `a || b` for an `undefined`-able string `a` with string default `b`:
the default is used when `a` is absent or empty (falsy). -/
def jsOr (o : Option String) (d : String) : String :=
  match o with
  | some s => if s = "" then d else s
  | none => d

/-- The price-candidate array of `scrapeBasic` (src/unnamed/part_000 lines
64-70): the five texts, then `.filter(Boolean)` dropping empty strings. -/
def priceCandidates (page : Page) : List String :=
  ([page.textAll "[itemprop=\"offers\"]",
    page.textAll "[itemprop=\"price\"]",
    page.firstText "[class*=\"price\"]",
    page.firstText "[id*=\"price\"]",
    page.textAll "body"]).filter (fun t => t != "")

/-- The candidate loop of `scrapeBasic` (lines 71-74): run `parsePrice`
over each candidate and stop at the first truthy result. -/
def pickPrice : List String → Option String
  | [] => none
  | t :: rest =>
    match parsePrice t with
    | some p => if p = "" then pickPrice rest else some p
    | none => pickPrice rest

/-- The `price` field `scrapeBasic` computes for a parsed page. -/
def scrapePrice (page : Page) : Option String := pickPrice (priceCandidates page)

/-- `noteSelectors` (src/unnamed/part_000 lines 78-86), in priority order. -/
def noteSelectors : List String :=
  ["div#pyramid div.pyramid__note",
   "div#pyramid div.note",
   "div.notes",
   "div.accords",
   "ul.notes li",
   "div#notes li",
   "div.basenotes"]

/-- The per-selector collection step of the notes loop (lines 88-91): trim
each matched element's text and keep the non-empty ones shorter than 60
characters. -/
def keptNotes (texts : List String) : List String :=
  (texts.map jsTrim).filter (fun t => t != "" && t.length < 60)

/-- The selector loop of `scrapeBasic` (lines 87-93): the kept texts of the
first selector that contributes anything; `if (notes.length) break` stops
the scan as soon as the accumulator is non-empty. -/
def collectFirst (page : Page) : List String → List String
  | [] => []
  | sel :: rest =>
    let k := keptNotes (page.elementTexts sel)
    if k.isEmpty then collectFirst page rest else k

/-- The `notes` field `scrapeBasic` computes (line 95):
`Array.from(new Set(notes)).slice(0, 20)` after the selector loop. -/
def scrapeNotes (page : Page) : List String :=
  (dedupFirst (collectFirst page noteSelectors)).take 20

/-- `scrapeBasic` (src/unnamed/part_000 lines 44-101), as a function of the
requested URL, the cheerio parse of a body string, and the fetch outcome.
The surrounding `try`/`catch` makes it total: `FetchOutcome.exn` is the
caught-exception branch (line 99), the `!data || typeof data !== 'string'`
guard is the no-error failure branch (lines 54-56), and everything else is
the `ok: true` record of line 97. -/
def scrapeBasic (url : String) (parse : String → Page) : FetchOutcome → ScrapeResult
  | FetchOutcome.exn msg => { url := url, ok := false, error := some msg }
  | FetchOutcome.response data responseUrl =>
    match data with
    | none => { url := url, ok := false }
    | some BodyData.nonText => { url := url, ok := false }
    | some (BodyData.text s) =>
      if s = "" then { url := url, ok := false }
      else
        let page := parse s
        let title := jsOr (page.attrContent "meta[property=\"og:title\"]")
          (jsTrim (page.textAll "title"))
        let desc := jsOr (page.attrContent "meta[name=\"description\"]")
          (jsOr (page.attrContent "meta[property=\"og:description\"]") "")
        { url := jsOr responseUrl url, ok := true, title := some title,
          desc := some desc, price := scrapePrice page,
          notes := scrapeNotes page, error := none }

/-- A Search Result item as reduced by `googleSearch` (lines 171-175). -/
structure SearchResult where
  title : String
  link : String
  snippet : String
deriving DecidableEq, Repr

/-- A Suggestion as assembled by the `/api/search` route (lines 218-225). -/
structure Suggestion where
  title : String
  url : String
  snippet : String
  price : Option String
  sourceTitle : Option String
  notes : List String
deriving DecidableEq, Repr

/-- JS `x || null` for an `undefined`-able string `x`: absent and empty
both collapse to `null`. -/
def jsOrNull (o : Option String) : Option String :=
  match o with
  | some s => if s = "" then none else some s
  | none => none

/-- One element of the suggestion array (lines 218-225): fields from the
search result `r` and from `scraped[i]?` (`none` when the index is out of
range, though the pipeline always supplies equal lengths). -/
def mkSuggestion (r : SearchResult) (sc : Option ScrapeResult) : Suggestion :=
  { title := r.title, url := r.link, snippet := r.snippet,
    price := jsOrNull (sc.bind ScrapeResult.price),
    sourceTitle := jsOrNull (sc.bind ScrapeResult.title),
    notes := match sc with | some s => s.notes | none => [] }

/-- `results.map((r, i) => ...)` with its running index, so that entry `k`
of the output pairs `results[k]` with `scraped[i + k]`. -/
def assembleFrom (scraped : List ScrapeResult) : Nat → List SearchResult → List Suggestion
  | _, [] => []
  | i, r :: rest => mkSuggestion r (scraped.get? i) :: assembleFrom scraped (i + 1) rest

/-- The suggestion assembly of the `/api/search` route (lines 218-225). -/
def assembleSuggestions (results : List SearchResult) (scraped : List ScrapeResult) :
    List Suggestion :=
  assembleFrom scraped 0 results

/-- `await Promise.all(results.map(r => scrapeBasic(r.link)))` (line 215):
`scrapeBasic` never rejects, so the all-settled join resolves with one
Scrape Result per search result, in order; `fetch` gives each URL's
outcome. -/
def scrapeAll (parse : String → Page) (fetch : String → FetchOutcome)
    (results : List SearchResult) : List ScrapeResult :=
  results.map (fun r => scrapeBasic r.link parse (fetch r.link))

/-- The scrape-and-assemble tail of the `/api/search` route. -/
def apiSuggestions (parse : String → Page) (fetch : String → FetchOutcome)
    (results : List SearchResult) : List Suggestion :=
  assembleSuggestions results (scrapeAll parse fetch results)

/-- The invariant C2 asserts of one normalized bucket: no duplicates, at
most 8 entries, and every entry non-empty and equal to the lower-cased
trimmed form of some input entry. -/
def bucketInv (input out : List String) : Prop :=
  out.Nodup ∧ out.length ≤ 8 ∧
    ∀ s ∈ out, s ≠ "" ∧ ∃ x ∈ input, s = jsTrim (jsLower x)

/-- First non-absent value of a candidate sequence: the shape C7 states for
the price lookup ("stop at the first candidate for which the Price
Extractor returns a non-absent result"). -/
def firstSome : List (Option String) → Option String
  | [] => none
  | some p :: _ => some p
  | none :: rest => firstSome rest

/-- A concrete parsed page for the C7 witness: a body text carrying one
price and nothing else. -/
def priceWitnessPage : Page :=
  { attrContent := fun _ => none,
    textAll := fun sel => if sel = "body" then "Only $12.50 today" else "",
    firstText := fun _ => "",
    elementTexts := fun _ => [] }

/-- A parsed page with no metadata, no title element, no price and no note
elements — what cheerio yields for a trivial document. -/
def emptyPage : Page :=
  { attrContent := fun _ => none,
    textAll := fun _ => "",
    firstText := fun _ => "",
    elementTexts := fun _ => [] }

/-- The page refuting C6 as stated: the highest-priority selector matches
exactly one element, but its text is 86 characters long and is filtered
out; the second selector holds the actual note. -/
def c6page : Page :=
  { attrContent := fun _ => none,
    textAll := fun _ => "",
    firstText := fun _ => "",
    elementTexts := fun sel =>
      if sel = "div#pyramid div.pyramid__note" then
        ["an extremely long note container text that cheerio returns and the scraper rejects"]
      else if sel = "div#pyramid div.note" then ["rose"]
      else [] }

/-- Modelled from the claim (C6): take the notes from the first selector
that matches at least one element, then apply the same keep/dedup/cap
steps. -/
def notesByFirstMatchingSelector (page : Page) : List String :=
  match noteSelectors.find? (fun sel => !(page.elementTexts sel).isEmpty) with
  | none => []
  | some sel => (dedupFirst (keptNotes (page.elementTexts sel))).take 20

/-- Per-URL fetch outcomes for the C9 scenario: one page fetches fine but
has neither a social-preview title nor a title element; the other URL's
fetch throws. -/
def c9fetch : String → FetchOutcome := fun u =>
  if u = "http://ok.example/" then
    FetchOutcome.response (some (BodyData.text "<html><body>hi</body></html>")) none
  else FetchOutcome.exn "connect ETIMEDOUT"

/-- The two search results of the C9 scenario. -/
def c9results : List SearchResult :=
  [⟨"Result A", "http://ok.example/", "snippet a"⟩,
   ⟨"Result B", "http://down.example/", "snippet b"⟩]

/-- The single-result scenario refuting C1's "sourceTitle is carried from
the Scrape Result, absent only when the scrape failed": the page parses
with an empty title. -/
def c1fetch : String → FetchOutcome := fun _ =>
  FetchOutcome.response (some (BodyData.text "<html><body>shop</body></html>")) none

/-- The search-result list of the C1 counterexample. -/
def c1results : List SearchResult :=
  [⟨"Shop listing", "http://notitle.example/", "a snippet"⟩]

/-- `x` occurs as a contiguous run inside `l`. -/
def hasSub (x l : List Char) : Prop := ∃ s t : List Char, l = s ++ (x ++ t)

/-- `x` is an initial run of `l`. -/
def hasPre (x l : List Char) : Prop := ∃ t : List Char, l = x ++ t

/-- Boolean test for `hasPre`, used to decide concrete occurrences. -/
def isPreB : List Char → List Char → Bool
  | [], _ => true
  | _ :: _, [] => false
  | a :: x, b :: l => a == b && isPreB x l

/-- Boolean test for `hasSub`, used to decide concrete occurrences. -/
def hasSubB : List Char → List Char → Bool
  | x, [] => isPreB x []
  | x, c :: rest => isPreB x (c :: rest) || hasSubB x rest

/-- The template-literal string of `buildPerfumeQueryFromNotes` before
whitespace collapsing and trimming. -/
def rawQuery (notes : NoteSet) : String :=
  joinSpace (notes.top.take 3) ++ " " ++ joinSpace (notes.middle.take 3) ++ " " ++
    joinSpace (notes.base.take 3) ++ " perfume with price"

/-! Theorems: properties of the embedded operations, one per claim,
together with the supporting lemmas. -/

example : parsePrice "$12.50" = some "$12.50" := by decide

example : parsePrice "€9,99" = some "€9.99" := by decide

example : parsePrice "no price here" = none := by decide

example : parsePrice "a $12.50 b €9,99" = some "$12.50" := by decide

example : parsePrice "$1,234.56" = some "$1.23" := by decide

example : parsePrice "ends with $ 7" = some "$7" := by decide

example : norm (some ["Rose", " rose ", "ROSE"]) = ["rose"] := by decide

example :
    buildPerfumeQueryFromNotes ⟨["bergamot", "lemon"], [], ["musk"]⟩ =
      "bergamot lemon musk perfume with price" := by decide

example : buildPerfumeQueryFromNotes ⟨[], [], []⟩ = "perfume with price" := by decide

theorem dedupFirstAux_mem {x : String} :
    ∀ (l seen : List String), x ∈ dedupFirstAux seen l → x ∈ l := by
  intro l
  induction l with
  | nil => intro seen h; simp [dedupFirstAux] at h
  | cons s rest ih =>
    intro seen h
    by_cases hs : s ∈ seen
    · exact List.mem_cons_of_mem s (ih seen (by simpa [dedupFirstAux, hs] using h))
    · rcases (by simpa [dedupFirstAux, hs] using h : x = s ∨ x ∈ dedupFirstAux (s :: seen) rest) with h1 | h1
      · exact h1 ▸ List.mem_cons_self x rest
      · exact List.mem_cons_of_mem s (ih (s :: seen) h1)

theorem dedupFirstAux_not_seen {x : String} :
    ∀ (l seen : List String), x ∈ dedupFirstAux seen l → x ∉ seen := by
  intro l
  induction l with
  | nil => intro seen h; simp [dedupFirstAux] at h
  | cons s rest ih =>
    intro seen h
    by_cases hs : s ∈ seen
    · exact ih seen (by simpa [dedupFirstAux, hs] using h)
    · rcases (by simpa [dedupFirstAux, hs] using h : x = s ∨ x ∈ dedupFirstAux (s :: seen) rest) with h1 | h1
      · exact h1 ▸ hs
      · intro hseen
        exact ih (s :: seen) h1 (List.mem_cons_of_mem s hseen)

theorem dedupFirstAux_nodup : ∀ (l seen : List String), (dedupFirstAux seen l).Nodup := by
  intro l
  induction l with
  | nil => intro seen; simp [dedupFirstAux]
  | cons s rest ih =>
    intro seen
    by_cases hs : s ∈ seen
    · simpa [dedupFirstAux, hs] using ih seen
    · have hnotmem : s ∉ dedupFirstAux (s :: seen) rest := by
        intro hmem
        exact dedupFirstAux_not_seen rest (s :: seen) hmem (List.mem_cons_self s seen)
      simpa [dedupFirstAux, hs] using List.nodup_cons.2 ⟨hnotmem, ih (s :: seen)⟩

theorem dedupFirst_mem {x : String} {l : List String} (h : x ∈ dedupFirst l) : x ∈ l :=
  dedupFirstAux_mem l [] h

theorem dedupFirst_nodup (l : List String) : (dedupFirst l).Nodup :=
  dedupFirstAux_nodup l []

theorem parsePrice_ne_some_empty {t p : String} (h : parsePrice t = some p) : p ≠ "" := by
  unfold parsePrice at h
  by_cases ht : t = ""
  · simp [ht] at h
  · rw [if_neg ht] at h
    rcases hf : findPrice (collapseChars t.data false) with _ | pr
    · rw [hf] at h; exact absurd h (by simp)
    · rw [hf] at h
      rcases pr with ⟨sym, amt⟩
      have hp : p = ⟨replaceFirstComma (sym :: amt)⟩ := by
        simpa using h.symm
      intro hemp
      have : p.data = replaceFirstComma (sym :: amt) := by rw [hp]
      rw [hemp] at this
      have hne : replaceFirstComma (sym :: amt) ≠ [] := by
        simp only [replaceFirstComma]
        split <;> simp
      exact hne this.symm

theorem pickPrice_ne_some_empty : ∀ l : List String, pickPrice l ≠ some "" := by
  intro l
  induction l with
  | nil => simp [pickPrice]
  | cons t rest ih =>
    simp only [pickPrice]
    rcases hp : parsePrice t with _ | p
    · exact ih
    · by_cases he : p = ""
      · simpa [he] using ih
      · simp only [if_neg he]
        intro hcontra
        exact he (by simpa using hcontra)

theorem norm_bucketInv (arr : Option (List String)) : bucketInv (arr.getD []) (norm arr) := by
  refine ⟨?_, ?_, ?_⟩
  · exact ((dedupFirst_nodup _).filter _).sublist (List.take_sublist _ _)
  · exact List.length_take_le _ _
  · intro s hs
    have hfil := List.mem_of_mem_take hs
    have hmem := (List.mem_filter.1 hfil).1
    have hne : s ≠ "" := by
      have := (List.mem_filter.1 hfil).2
      simpa using this
    have hmap := dedupFirst_mem hmem
    rcases List.mem_map.1 hmap with ⟨x, hx, hxe⟩
    exact ⟨hne, x, hx, hxe.symm⟩

/-- C2: every bucket of the Note Set produced by the note extractor is
normalized regardless of which parsing path produced `p`: entries are the
lower-cased trimmed forms of input entries, deduplicated, non-empty, and at
most 8 per bucket; and `["Rose", " rose ", "ROSE"]` normalizes to exactly
`["rose"]`. -/
theorem noteNormalization_spec :
    (∀ p : ParsedNotes,
      bucketInv (p.top.getD []) (normalizeParsedNotes p).top ∧
      bucketInv (p.middle.getD []) (normalizeParsedNotes p).middle ∧
      bucketInv (p.base.getD []) (normalizeParsedNotes p).base) ∧
    norm (some ["Rose", " rose ", "ROSE"]) = ["rose"] := by
  refine ⟨fun p => ⟨norm_bucketInv p.top, norm_bucketInv p.middle, norm_bucketInv p.base⟩, ?_⟩
  decide

theorem noteNormalization_spec_witness :
    "rose" ≠ "" ∧ ∃ x ∈ ["Rose", " rose ", "ROSE"], "rose" = jsTrim (jsLower x) := by
  have h := (noteNormalization_spec.1 ⟨some ["Rose", " rose ", "ROSE"], none, none⟩).1
  exact h.2.2 "rose" (by decide)

/-- C8: the search operation raises the configuration error exactly when a
credential is missing (empty), for every query and limit; with both
credentials present the error branch is unreachable and the request is
built. -/
theorem googleSearch_credentials_spec :
    ∀ (cfg : SearchConfig) (query : String) (num : Nat),
      ((cfg.apiKey = "" ∨ cfg.cx = "") →
        googleSearch cfg query num =
          Except.error "Missing GOOGLE_API_KEY or GOOGLE_CSE_CX in environment.") ∧
      (cfg.apiKey ≠ "" → cfg.cx ≠ "" →
        googleSearch cfg query num =
          Except.ok
            { key := cfg.apiKey, cx := cfg.cx, q := buildSiteQuery cfg query,
              num := num, safe := "active", lr := "lang_en" }) := by
  intro cfg query num
  constructor
  · intro h
    simp [googleSearch, h]
  · intro h1 h2
    simp [googleSearch, h1, h2]

theorem googleSearch_credentials_spec_witness :
    googleSearch ⟨"", "cx0", []⟩ "vetiver perfume" 6 =
      Except.error "Missing GOOGLE_API_KEY or GOOGLE_CSE_CX in environment." ∧
    googleSearch ⟨"k0", "cx0", []⟩ "vetiver perfume" 6 =
      Except.ok ⟨"k0", "cx0", "vetiver perfume", 6, "active", "lang_en"⟩ := by
  constructor
  · exact (googleSearch_credentials_spec ⟨"", "cx0", []⟩ "vetiver perfume" 6).1 (Or.inl rfl)
  · have h := (googleSearch_credentials_spec ⟨"k0", "cx0", []⟩ "vetiver perfume" 6).2
      (by decide) (by decide)
    simpa [buildSiteQuery] using h

theorem pickPrice_filter_eq_firstSome :
    ∀ l : List String, pickPrice (l.filter (fun t => t != "")) = firstSome (l.map parsePrice) := by
  intro l
  induction l with
  | nil => rfl
  | cons t rest ih =>
    by_cases ht : t = ""
    · subst ht
      simpa [parsePrice, firstSome] using ih
    · rw [List.filter_cons_of_pos (by simpa using ht), List.map_cons]
      rcases hp : parsePrice t with _ | p
      · simpa [pickPrice, hp, firstSome] using ih
      · have hpe : p ≠ "" := parsePrice_ne_some_empty hp
        simp [pickPrice, hp, hpe, firstSome]

/-- C7: for any successfully fetched textual page, the price field of
`scrapeBasic` is the first non-absent `parsePrice` result over the five
candidates in source order: the "offers" structured-data text, the "price"
structured-data text, the first element whose class contains "price", the
first element whose id contains "price", and the whole body text. -/
theorem scrapePrice_candidateOrder_spec :
    ∀ (url s : String) (parse : String → Page) (ru : Option String), s ≠ "" →
      (scrapeBasic url parse (FetchOutcome.response (some (BodyData.text s)) ru)).price =
        firstSome
          ([(parse s).textAll "[itemprop=\"offers\"]",
            (parse s).textAll "[itemprop=\"price\"]",
            (parse s).firstText "[class*=\"price\"]",
            (parse s).firstText "[id*=\"price\"]",
            (parse s).textAll "body"].map parsePrice) := by
  intro url s parse ru hs
  have hb : (scrapeBasic url parse (FetchOutcome.response (some (BodyData.text s)) ru)).price =
      scrapePrice (parse s) := by
    simp [scrapeBasic, hs]
  rw [hb]
  exact pickPrice_filter_eq_firstSome _

theorem scrapePrice_candidateOrder_spec_witness :
    (scrapeBasic "http://a.example/" (fun _ => priceWitnessPage)
        (FetchOutcome.response (some (BodyData.text "<html>")) none)).price =
      firstSome
        ([priceWitnessPage.textAll "[itemprop=\"offers\"]",
          priceWitnessPage.textAll "[itemprop=\"price\"]",
          priceWitnessPage.firstText "[class*=\"price\"]",
          priceWitnessPage.firstText "[id*=\"price\"]",
          priceWitnessPage.textAll "body"].map parsePrice) :=
  scrapePrice_candidateOrder_spec "http://a.example/" "<html>" (fun _ => priceWitnessPage)
    none (by decide)

theorem mem_collapseChars {c : Char} :
    ∀ (l : List Char) (b : Bool), c ∈ collapseChars l b → c = ' ' ∨ c ∈ l := by
  intro l
  induction l with
  | nil => intro b h; simp [collapseChars] at h
  | cons d rest ih =>
    intro b h
    by_cases hd : wsChar d
    · by_cases hb : b
      · rcases ih true (by simpa [collapseChars, hd, hb] using h) with h1 | h1
        · exact Or.inl h1
        · exact Or.inr (List.mem_cons_of_mem d h1)
      · rcases (by simpa [collapseChars, hd, hb] using h : c = ' ' ∨ c ∈ collapseChars rest true) with h1 | h1
        · exact Or.inl h1
        · rcases ih true h1 with h2 | h2
          · exact Or.inl h2
          · exact Or.inr (List.mem_cons_of_mem d h2)
    · rcases (by simpa [collapseChars, hd] using h : c = d ∨ c ∈ collapseChars rest false) with h1 | h1
      · exact Or.inr (h1 ▸ List.mem_cons_self d rest)
      · rcases ih false h1 with h2 | h2
        · exact Or.inl h2
        · exact Or.inr (List.mem_cons_of_mem d h2)

theorem findPrice_eq_none : ∀ l : List Char, (∀ c ∈ l, isSym c = false) → findPrice l = none := by
  intro l
  induction l with
  | nil => intro _; rfl
  | cons c rest ih =>
    intro h
    have hc : isSym c = false := h c (List.mem_cons_self c rest)
    have hmatch : matchPriceAt (c :: rest) = none := by
      simp [matchPriceAt, hc]
    simp only [findPrice, hmatch]
    exact ih (fun d hd => h d (List.mem_cons_of_mem c hd))

/-- C3: the Price Extractor returns `"$12.50"` for text containing
`"$12.50"`, `"€9.99"` for `"€9,99"` (comma separator normalized to a dot),
only the first match when several prices are present, and `none` for any
text containing no currency symbol at all. -/
theorem parsePrice_firstMatch_spec :
    parsePrice "$12.50" = some "$12.50" ∧
    parsePrice "Sale price: $12.50 (was $19.99)" = some "$12.50" ∧
    parsePrice "€9,99" = some "€9.99" ∧
    parsePrice "Now $12.50 or €9,99 later" = some "$12.50" ∧
    ∀ text : String, (∀ c ∈ text.data, isSym c = false) → parsePrice text = none := by
  refine ⟨by decide, by decide, by decide, by decide, ?_⟩
  intro text h
  by_cases ht : text = ""
  · simp [parsePrice, ht]
  · have hnone : findPrice (collapseChars text.data false) = none := by
      refine findPrice_eq_none _ (fun c hc => ?_)
      rcases mem_collapseChars text.data false hc with h1 | h1
      · rw [h1]; rfl
      · exact h c h1
    simp [parsePrice, ht, hnone]

theorem parsePrice_firstMatch_spec_witness :
    parsePrice "no currency symbol in sight" = none :=
  parsePrice_firstMatch_spec.2.2.2.2 "no currency symbol in sight" (by decide)

theorem isSym_ne_comma {c : Char} (h : isSym c = true) : c ≠ ',' := by
  rcases (by simpa [isSym] using h : (c = '$' ∨ c = '€') ∨ c = '£') with (h1 | h1) | h1 <;>
    simp [h1]

theorem replaceFirstComma_no_comma :
    ∀ l : List Char, (∀ c ∈ l, c ≠ ',') → replaceFirstComma l = l := by
  intro l
  induction l with
  | nil => intro _; rfl
  | cons c rest ih =>
    intro h
    have hc : c ≠ ',' := h c (List.mem_cons_self c rest)
    simp only [replaceFirstComma, if_neg hc]
    rw [ih (fun d hd => h d (List.mem_cons_of_mem c hd))]

theorem replaceFirstComma_append_no_comma :
    ∀ (l1 l2 : List Char), (∀ c ∈ l1, c ≠ ',') →
      replaceFirstComma (l1 ++ l2) = l1 ++ replaceFirstComma l2 := by
  intro l1
  induction l1 with
  | nil => intro l2 _; rfl
  | cons c rest ih =>
    intro l2 h
    have hc : c ≠ ',' := h c (List.mem_cons_self c rest)
    simp only [List.cons_append, replaceFirstComma, if_neg hc, List.append_eq]
    rw [ih l2 (fun d hd => h d (List.mem_cons_of_mem c hd))]

theorem decPart_shape (l : List Char) :
    decPart l = [] ∨
      ∃ s a b, (s = '.' ∨ s = ',') ∧ a.isDigit = true ∧ b.isDigit = true ∧
        decPart l = [s, a, b] := by
  rcases l with _ | ⟨s, _ | ⟨a, _ | ⟨b, rest⟩⟩⟩
  · exact Or.inl rfl
  · exact Or.inl rfl
  · exact Or.inl rfl
  · by_cases h : (s = '.' ∨ s = ',') ∧ a.isDigit ∧ b.isDigit
    · exact Or.inr ⟨s, a, b, h.1, by simp [h.2.1], by simp [h.2.2], by simp [decPart, h]⟩
    · exact Or.inl (by simp [decPart, h])

theorem matchPriceAt_shape {l : List Char} {sym : Char} {amt : List Char}
    (h : matchPriceAt l = some (sym, amt)) :
    isSym sym = true ∧
      ∃ ds rest3, amt = ds ++ decPart rest3 ∧ ds ≠ [] ∧ ∀ c ∈ ds, c.isDigit = true := by
  rcases l with _ | ⟨c, rest⟩
  · exact absurd h (by simp [matchPriceAt])
  · by_cases hc : isSym c
    · simp only [matchPriceAt, hc, if_true] at h
      by_cases hds : ((skipOneWs rest).takeWhile Char.isDigit).isEmpty
      · rw [if_pos hds] at h
        exact absurd h (by simp)
      · rw [if_neg hds] at h
        have hsym : sym = c := by
          have := congrArg (fun o => Option.map Prod.fst o) h
          simpa using this.symm
        have hamt : amt =
            (skipOneWs rest).takeWhile Char.isDigit ++
              decPart ((skipOneWs rest).drop ((skipOneWs rest).takeWhile Char.isDigit).length) := by
          have := congrArg (fun o => Option.map Prod.snd o) h
          simpa using this.symm
        refine ⟨hsym ▸ hc, (skipOneWs rest).takeWhile Char.isDigit, _, hamt, ?_, ?_⟩
        · intro hempty
          rw [hempty] at hds
          exact hds rfl
        · intro d hd
          exact List.mem_takeWhile_imp hd
    · exact absurd h (by simp [matchPriceAt, hc])

theorem findPrice_shape :
    ∀ {l : List Char} {sym : Char} {amt : List Char}, findPrice l = some (sym, amt) →
      isSym sym = true ∧
        ∃ ds rest3, amt = ds ++ decPart rest3 ∧ ds ≠ [] ∧ ∀ c ∈ ds, c.isDigit = true := by
  intro l
  induction l with
  | nil => intro sym amt h; exact absurd h (by simp [findPrice])
  | cons c rest ih =>
    intro sym amt h
    rcases hm : matchPriceAt (c :: rest) with _ | pr
    · rw [findPrice, hm] at h
      exact ih h
    · rw [findPrice, hm] at h
      have : pr = (sym, amt) := by simpa using h
      exact matchPriceAt_shape (this ▸ hm)

/-- C10: on `"$1,234.56"` the extractor matches `$` then the digit run `1`
then `,23` as the two-digit decimal group, returning `"$1.23"` — the
thousands-separated amount is cut at its first matching prefix, neither
rejected nor returned whole; and in general every successful result is a
currency symbol followed by a digit run with an optional dot-separated
two-digit decimal part. -/
theorem parsePrice_truncation_spec :
    parsePrice "$1,234.56" = some "$1.23" ∧
    parsePrice "$1,234.56" ≠ some "$1,234.56" ∧
    parsePrice "$1,234.56" ≠ none ∧
    ∀ text p : String, parsePrice text = some p →
      ∃ sym ds, isSym sym = true ∧ ds ≠ [] ∧ (∀ c ∈ ds, c.isDigit = true) ∧
        (p.data = sym :: ds ∨
          ∃ a b : Char, a.isDigit = true ∧ b.isDigit = true ∧
            p.data = sym :: (ds ++ ['.', a, b])) := by
  refine ⟨by decide, by decide, by decide, ?_⟩
  intro text p h
  unfold parsePrice at h
  by_cases ht : text = ""
  · simp [ht] at h
  · rw [if_neg ht] at h
    rcases hf : findPrice (collapseChars text.data false) with _ | pr
    · rw [hf] at h; exact absurd h (by simp)
    · rw [hf] at h
      rcases pr with ⟨sym, amt⟩
      have hp : p = ⟨replaceFirstComma (sym :: amt)⟩ := by simpa using h.symm
      rcases findPrice_shape hf with ⟨hsym, ds, rest3, hamt, hne, hdig⟩
      have hsymne : sym ≠ ',' := isSym_ne_comma hsym
      have hdsne : ∀ c ∈ ds, c ≠ ',' := by
        intro c hc heq
        have := hdig c hc
        rw [heq] at this
        exact absurd this (by decide)
      have hdata : p.data = sym :: replaceFirstComma amt := by
        rw [hp]
        show replaceFirstComma (sym :: amt) = sym :: replaceFirstComma amt
        simp [replaceFirstComma, if_neg hsymne]
      rcases decPart_shape rest3 with hdec | ⟨s, a, b, hsep, ha, hb, hdec⟩
      · refine ⟨sym, ds, hsym, hne, hdig, Or.inl ?_⟩
        rw [hdata, hamt, hdec, List.append_nil, replaceFirstComma_no_comma ds hdsne]
      · refine ⟨sym, ds, hsym, hne, hdig, Or.inr ⟨a, b, ha, hb, ?_⟩⟩
        rw [hdata, hamt, hdec, replaceFirstComma_append_no_comma ds [s, a, b] hdsne]
        rcases hsep with hs | hs
        · rw [hs]
          have hane : a ≠ ',' := by
            intro heq; rw [heq] at ha; exact absurd ha (by decide)
          have hbne : b ≠ ',' := by
            intro heq; rw [heq] at hb; exact absurd hb (by decide)
          simp [replaceFirstComma, hane, hbne]
        · rw [hs]
          simp [replaceFirstComma]

theorem parsePrice_truncation_spec_witness :
    ∃ sym ds, isSym sym = true ∧ ds ≠ [] ∧ (∀ c ∈ ds, c.isDigit = true) ∧
      (("$1.23" : String).data = sym :: ds ∨
        ∃ a b : Char, a.isDigit = true ∧ b.isDigit = true ∧
          ("$1.23" : String).data = sym :: (ds ++ ['.', a, b])) :=
  parsePrice_truncation_spec.2.2.2 "$1,234.56" "$1.23" (by decide)

/-- C5 counterexample: a response whose body is the empty string is present
and textual, so by the claim every such outcome should have `ok: true`;
`scrapeBasic` nevertheless returns the no-error failure record, because the
JS guard `!data` is also true for the falsy empty string. -/
theorem scrapeBasic_emptyBody_cex :
    scrapeBasic "http://empty.example/" (fun _ => emptyPage)
        (FetchOutcome.response (some (BodyData.text "")) none) =
      { url := "http://empty.example/", ok := false } ∧
    (scrapeBasic "http://empty.example/" (fun _ => emptyPage)
        (FetchOutcome.response (some (BodyData.text "")) none)).ok = false := by
  constructor <;> rfl

/-- C5 (amended): `scrapeBasic` never raises — it is a total function of
the fetch outcome; any exception during fetch or parse resolves to
`{url, ok: false, error: <the rendered message>}` (non-empty whenever the
rendering is), a response whose body is absent, non-textual or empty
resolves to `{url, ok: false}` with no error field, and every other
outcome has `ok: true` and no error field. -/
theorem scrapeBasic_failure_amended :
    ∀ (url msg : String) (parse : String → Page) (data : Option BodyData)
      (ru : Option String),
      (scrapeBasic url parse (FetchOutcome.exn msg) =
        { url := url, ok := false, error := some msg }) ∧
      (msg ≠ "" →
        ∃ e, (scrapeBasic url parse (FetchOutcome.exn msg)).error = some e ∧ e ≠ "") ∧
      (data = none ∨ data = some BodyData.nonText ∨ data = some (BodyData.text "") →
        scrapeBasic url parse (FetchOutcome.response data ru) = { url := url, ok := false }) ∧
      (∀ s : String, s ≠ "" →
        (scrapeBasic url parse (FetchOutcome.response (some (BodyData.text s)) ru)).ok = true ∧
        (scrapeBasic url parse (FetchOutcome.response (some (BodyData.text s)) ru)).error =
          none) := by
  intro url msg parse data ru
  refine ⟨rfl, fun hmsg => ⟨msg, rfl, hmsg⟩, ?_, ?_⟩
  · intro h
    rcases h with h | h | h <;> rw [h] <;> rfl
  · intro s hs
    constructor <;> simp [scrapeBasic, hs]

theorem scrapeBasic_failure_amended_witness :
    (∃ e, (scrapeBasic "http://down.example/" (fun _ => emptyPage)
        (FetchOutcome.exn "connect ECONNREFUSED 127.0.0.1:80")).error = some e ∧ e ≠ "") ∧
    scrapeBasic "http://down.example/" (fun _ => emptyPage)
        (FetchOutcome.response none none) =
      { url := "http://down.example/", ok := false } ∧
    (scrapeBasic "http://page.example/" (fun _ => emptyPage)
        (FetchOutcome.response (some (BodyData.text "<html></html>")) none)).ok = true := by
  refine ⟨?_, ?_, ?_⟩
  · exact (scrapeBasic_failure_amended "http://down.example/"
      "connect ECONNREFUSED 127.0.0.1:80" (fun _ => emptyPage) none none).2.1 (by decide)
  · exact (scrapeBasic_failure_amended "http://down.example/" "m" (fun _ => emptyPage)
      none none).2.2.1 (Or.inl rfl)
  · exact ((scrapeBasic_failure_amended "http://page.example/" "m" (fun _ => emptyPage)
      none none).2.2.2 "<html></html>" (by decide)).1

theorem collectFirst_cases (page : Page) :
    ∀ sels : List String,
      ((∀ sel ∈ sels, keptNotes (page.elementTexts sel) = []) ∧ collectFirst page sels = []) ∨
      (∃ i, ∃ h : i < sels.length,
        keptNotes (page.elementTexts (sels.get ⟨i, h⟩)) ≠ [] ∧
        (∀ j, ∀ hj : j < sels.length, j < i →
          keptNotes (page.elementTexts (sels.get ⟨j, hj⟩)) = []) ∧
        collectFirst page sels = keptNotes (page.elementTexts (sels.get ⟨i, h⟩))) := by
  intro sels
  induction sels with
  | nil => exact Or.inl ⟨by simp, rfl⟩
  | cons sel rest ih =>
    by_cases hk : keptNotes (page.elementTexts sel) = []
    · rcases ih with ⟨hall, hres⟩ | ⟨i, hi, hne, hbefore, hres⟩
      · refine Or.inl ⟨?_, ?_⟩
        · intro s hs
          rcases List.mem_cons.1 hs with h1 | h1
          · exact h1 ▸ hk
          · exact hall s h1
        · simpa [collectFirst, hk] using hres
      · refine Or.inr ⟨i + 1, Nat.succ_lt_succ hi, by simpa using hne, ?_, ?_⟩
        · intro j hj hlt
          rcases j with _ | j
          · exact hk
          · exact hbefore j (Nat.lt_of_succ_lt_succ hj) (Nat.lt_of_succ_lt_succ hlt)
        · simpa [collectFirst, hk] using hres
    · refine Or.inr ⟨0, Nat.succ_pos _, by simpa using hk, by omega, ?_⟩
      have hkne : ¬ (keptNotes (page.elementTexts sel)).isEmpty = true := by
        simpa [List.isEmpty_iff] using hk
      simp [collectFirst, hkne]

theorem keptNotes_mem {t : String} {texts : List String} (h : t ∈ keptNotes texts) :
    t ≠ "" ∧ t.length < 60 ∧ ∃ raw ∈ texts, t = jsTrim raw := by
  have hmem := (List.mem_filter.1 h).1
  have hprop := (List.mem_filter.1 h).2
  have hand : (t != "") = true ∧ decide (t.length < 60) = true := by
    simpa [Bool.and_eq_true] using hprop
  have h1 : t ≠ "" := by simpa using hand.1
  have h2 : t.length < 60 := by simpa using hand.2
  rcases List.mem_map.1 hmem with ⟨raw, hraw, hre⟩
  exact ⟨h1, h2, raw, hraw, hre.symm⟩

theorem collectFirst_mem {page : Page} {t : String} :
    ∀ sels : List String, t ∈ collectFirst page sels →
      ∃ sel ∈ sels, t ∈ keptNotes (page.elementTexts sel) := by
  intro sels
  induction sels with
  | nil => intro h; simp [collectFirst] at h
  | cons sel rest ih =>
    intro h
    by_cases hk : (keptNotes (page.elementTexts sel)).isEmpty
    · rcases ih (by simpa [collectFirst, hk] using h) with ⟨s, hs, hmem⟩
      exact ⟨s, List.mem_cons_of_mem sel hs, hmem⟩
    · exact ⟨sel, List.mem_cons_self sel rest, by simpa [collectFirst, hk] using h⟩

/-- C6 (amended): the notes of a page come from the first selector in the
priority list that yields at least one kept entry — a non-empty trimmed
text shorter than 60 characters; a selector that matches elements but
yields nothing kept does not stop the scan.  The resulting list is
deduplicated, capped at 20, and every entry is a non-empty trimmed element
text shorter than 60 characters. -/
theorem scrapeNotes_firstProductive_amended :
    ∀ page : Page,
      (((∀ sel ∈ noteSelectors, keptNotes (page.elementTexts sel) = []) ∧
          scrapeNotes page = []) ∨
        (∃ i, ∃ h : i < noteSelectors.length,
          keptNotes (page.elementTexts (noteSelectors.get ⟨i, h⟩)) ≠ [] ∧
          (∀ j, ∀ hj : j < noteSelectors.length, j < i →
            keptNotes (page.elementTexts (noteSelectors.get ⟨j, hj⟩)) = []) ∧
          scrapeNotes page =
            (dedupFirst (keptNotes (page.elementTexts (noteSelectors.get ⟨i, h⟩)))).take 20)) ∧
      (scrapeNotes page).Nodup ∧
      (scrapeNotes page).length ≤ 20 ∧
      ∀ t ∈ scrapeNotes page, t ≠ "" ∧ t.length < 60 ∧
        ∃ sel ∈ noteSelectors, ∃ raw ∈ page.elementTexts sel, t = jsTrim raw := by
  intro page
  refine ⟨?_, ?_, ?_, ?_⟩
  · rcases collectFirst_cases page noteSelectors with ⟨hall, hres⟩ | ⟨i, hi, hne, hbefore, hres⟩
    · exact Or.inl ⟨hall, by simp [scrapeNotes, hres, dedupFirst, dedupFirstAux]⟩
    · exact Or.inr ⟨i, hi, hne, hbefore, by simp [scrapeNotes, hres]⟩
  · exact (dedupFirst_nodup _).sublist (List.take_sublist _ _)
  · exact List.length_take_le _ _
  · intro t ht
    have hcf : t ∈ collectFirst page noteSelectors :=
      dedupFirst_mem (List.mem_of_mem_take ht)
    rcases collectFirst_mem noteSelectors hcf with ⟨sel, hsel, hkept⟩
    rcases keptNotes_mem hkept with ⟨h1, h2, raw, hraw, hre⟩
    exact ⟨h1, h2, sel, hsel, raw, hraw, hre⟩

/-- C6 counterexample: on `c6page` the first selector matches one element,
so by the claim the notes would come from it (and be empty, its only text
being 60 characters or longer); `scrapeBasic` instead consults the second
selector and returns `["rose"]`. -/
theorem scrapeNotes_selector_cex :
    c6page.elementTexts "div#pyramid div.pyramid__note" ≠ [] ∧
    scrapeNotes c6page = ["rose"] ∧
    notesByFirstMatchingSelector c6page = [] ∧
    scrapeNotes c6page ≠ notesByFirstMatchingSelector c6page := by
  refine ⟨by decide, by decide, by decide, by decide⟩

theorem scrapeNotes_firstProductive_amended_witness :
    "rose" ≠ "" ∧ ("rose" : String).length < 60 ∧
      ∃ sel ∈ noteSelectors, ∃ raw ∈ c6page.elementTexts sel, "rose" = jsTrim raw :=
  (scrapeNotes_firstProductive_amended c6page).2.2.2 "rose" (by decide)

/-- C9: an absent `sourceTitle` does not imply the scrape failed — the
first scrape here succeeds (`ok: true`) with title `""` (no og:title, no
title element), the second fails, and the assembler maps both to
`sourceTitle = none`. -/
theorem emptyTitle_ambiguity_spec :
    (scrapeBasic "http://ok.example/" (fun _ => emptyPage) (c9fetch "http://ok.example/")).ok =
      true ∧
    (scrapeBasic "http://ok.example/" (fun _ => emptyPage)
        (c9fetch "http://ok.example/")).title = some "" ∧
    (scrapeBasic "http://down.example/" (fun _ => emptyPage)
        (c9fetch "http://down.example/")).ok = false ∧
    (apiSuggestions (fun _ => emptyPage) c9fetch c9results).map Suggestion.sourceTitle =
      [none, none] := by
  refine ⟨by decide, by decide, by decide, by decide⟩

theorem assembleFrom_length (scraped : List ScrapeResult) :
    ∀ (results : List SearchResult) (i : Nat),
      (assembleFrom scraped i results).length = results.length := by
  intro results
  induction results with
  | nil => intro i; rfl
  | cons r rest ih =>
    intro i
    simp [assembleFrom, ih (i + 1)]

theorem assembleFrom_get (scraped : List ScrapeResult) :
    ∀ (results : List SearchResult) (i k : Nat) (hk : k < results.length)
      (hk2 : k < (assembleFrom scraped i results).length),
      (assembleFrom scraped i results).get ⟨k, hk2⟩ =
        mkSuggestion (results.get ⟨k, hk⟩) (scraped.get? (i + k)) := by
  intro results
  induction results with
  | nil => intro i k hk hk2; exact absurd hk (by simp)
  | cons r rest ih =>
    intro i k hk hk2
    rcases k with _ | k
    · simp [assembleFrom]
    · have hk3 : k < (assembleFrom scraped (i + 1) rest).length := by
        rw [assembleFrom_length]
        exact Nat.lt_of_succ_lt_succ hk
      have := ih (i + 1) k (Nat.lt_of_succ_lt_succ hk) hk3
      simp only [assembleFrom, List.get_cons_succ]
      rw [this]
      congr 2
      omega

theorem scrapeBasic_not_ok_fields (url : String) (parse : String → Page) :
    ∀ o : FetchOutcome, (scrapeBasic url parse o).ok = false →
      (scrapeBasic url parse o).price = none ∧
      (scrapeBasic url parse o).title = none ∧
      (scrapeBasic url parse o).notes = [] := by
  intro o
  rcases o with msg | ⟨data, ru⟩
  · intro _; exact ⟨rfl, rfl, rfl⟩
  · rcases data with _ | bd
    · intro _; exact ⟨rfl, rfl, rfl⟩
    · rcases bd with s | _
      · by_cases hs : s = ""
        · intro _; subst hs; exact ⟨rfl, rfl, rfl⟩
        · intro hok
          exact absurd hok (by simp [scrapeBasic, hs])
      · intro _; exact ⟨rfl, rfl, rfl⟩

theorem scrapeBasic_price_ne_some_empty (url : String) (parse : String → Page)
    (o : FetchOutcome) : (scrapeBasic url parse o).price ≠ some "" := by
  rcases o with msg | ⟨data, ru⟩
  · simp [scrapeBasic]
  · rcases data with _ | bd
    · simp [scrapeBasic]
    · rcases bd with s | _
      · by_cases hs : s = ""
        · simp [scrapeBasic, hs]
        · have : (scrapeBasic url parse
              (FetchOutcome.response (some (BodyData.text s)) ru)).price =
              scrapePrice (parse s) := by
            simp [scrapeBasic, hs]
          rw [this]
          exact pickPrice_ne_some_empty _
      · simp [scrapeBasic]

theorem jsOrNull_eq_self {o : Option String} (h : o ≠ some "") : jsOrNull o = o := by
  rcases o with _ | s
  · rfl
  · have hs : s ≠ "" := fun he => h (he ▸ rfl)
    simp [jsOrNull, hs]

/-- C1 counterexample: the scrape of the only result succeeds with title
`""`, yet the assembled suggestion's `sourceTitle` is `none` rather than
that Scrape Result title — the `|| null` coercion erases the empty string
even though the scrape did not fail. -/
theorem assembler_emptyTitle_cex :
    (scrapeBasic "http://notitle.example/" (fun _ => emptyPage)
        (c1fetch "http://notitle.example/")).ok = true ∧
    (scrapeBasic "http://notitle.example/" (fun _ => emptyPage)
        (c1fetch "http://notitle.example/")).title = some "" ∧
    (apiSuggestions (fun _ => emptyPage) c1fetch c1results).map Suggestion.sourceTitle =
      [none] ∧
    (none : Option String) ≠ some "" := by
  refine ⟨by decide, by decide, by decide, by decide⟩

/-- C1 (amended): for every batch the assembler produces exactly one
Suggestion per Search Result, in the same order; entry `i` carries
`title`/`url`/`snippet` from Search Result `i` and its `price`/`notes` from
the positionally corresponding Scrape Result, with `price` and
`sourceTitle` absent and `notes` empty when that scrape failed;
`sourceTitle` is the Scrape Result's title when that title is non-empty,
and absent also when a successful scrape produced an empty title.  One
scrape's failure never drops, reorders or aborts the other items (the
Scrape Result list is the order-preserving map of `scrapeBasic`, which is
total, over the Search Results). -/
theorem assembler_pairing_amended :
    ∀ (parse : String → Page) (fetch : String → FetchOutcome) (results : List SearchResult),
      (apiSuggestions parse fetch results).length = results.length ∧
      ∀ i : Nat, ∀ hi : i < results.length,
        ∀ hs : i < (apiSuggestions parse fetch results).length,
        ∀ r : SearchResult, results.get ⟨i, hi⟩ = r →
        ∀ sc : ScrapeResult, scrapeBasic r.link parse (fetch r.link) = sc →
          ((apiSuggestions parse fetch results).get ⟨i, hs⟩).title = r.title ∧
          ((apiSuggestions parse fetch results).get ⟨i, hs⟩).url = r.link ∧
          ((apiSuggestions parse fetch results).get ⟨i, hs⟩).snippet = r.snippet ∧
          (sc.ok = false →
            ((apiSuggestions parse fetch results).get ⟨i, hs⟩).price = none ∧
            ((apiSuggestions parse fetch results).get ⟨i, hs⟩).sourceTitle = none ∧
            ((apiSuggestions parse fetch results).get ⟨i, hs⟩).notes = []) ∧
          (sc.ok = true →
            ((apiSuggestions parse fetch results).get ⟨i, hs⟩).price = sc.price ∧
            ((apiSuggestions parse fetch results).get ⟨i, hs⟩).notes = sc.notes ∧
            (sc.title = some "" →
              ((apiSuggestions parse fetch results).get ⟨i, hs⟩).sourceTitle = none) ∧
            (sc.title ≠ some "" →
              ((apiSuggestions parse fetch results).get ⟨i, hs⟩).sourceTitle = sc.title)) := by
  intro parse fetch results
  constructor
  · exact assembleFrom_length _ results 0
  · intro i hi hs r hr sc hsc
    have hget : (apiSuggestions parse fetch results).get ⟨i, hs⟩ =
        mkSuggestion (results.get ⟨i, hi⟩) ((scrapeAll parse fetch results).get? (0 + i)) :=
      assembleFrom_get (scrapeAll parse fetch results) results 0 i hi hs
    have hmap : (scrapeAll parse fetch results).get? (0 + i) = some sc := by
      rw [Nat.zero_add]
      unfold scrapeAll
      rw [List.get?_map, List.get?_eq_get hi, hr]
      simp [hsc]
    rw [hmap, hr] at hget
    have hpriceshape : sc.price ≠ some "" := by
      rw [← hsc]
      exact scrapeBasic_price_ne_some_empty r.link parse (fetch r.link)
    refine ⟨by rw [hget]; rfl, by rw [hget]; rfl, by rw [hget]; rfl, ?_, ?_⟩
    · intro hok
      have hfields := scrapeBasic_not_ok_fields r.link parse (fetch r.link) (hsc ▸ hok)
      rw [hsc] at hfields
      refine ⟨?_, ?_, ?_⟩
      · rw [hget]
        show jsOrNull sc.price = none
        rw [hfields.1]; rfl
      · rw [hget]
        show jsOrNull sc.title = none
        rw [hfields.2.1]; rfl
      · rw [hget]
        show sc.notes = []
        exact hfields.2.2
    · intro _
      refine ⟨?_, ?_, ?_, ?_⟩
      · rw [hget]
        show jsOrNull sc.price = sc.price
        exact jsOrNull_eq_self hpriceshape
      · rw [hget]; rfl
      · intro htitle
        rw [hget]
        show jsOrNull sc.title = none
        rw [htitle]; rfl
      · intro htitle
        rw [hget]
        show jsOrNull sc.title = sc.title
        exact jsOrNull_eq_self htitle

theorem assembler_pairing_amended_witness :
    (apiSuggestions (fun _ => emptyPage) c9fetch c9results).length = c9results.length ∧
    ((apiSuggestions (fun _ => emptyPage) c9fetch c9results).get ⟨1, by decide⟩).title =
      "Result B" ∧
    ((apiSuggestions (fun _ => emptyPage) c9fetch c9results).get ⟨1, by decide⟩).price =
      none := by
  have h := assembler_pairing_amended (fun _ => emptyPage) c9fetch c9results
  have h2 := h.2 1 (by decide) (by decide)
    (⟨"Result B", "http://down.example/", "snippet b"⟩ : SearchResult) (by decide)
    (scrapeBasic "http://down.example/" (fun _ => emptyPage) (c9fetch "http://down.example/"))
    rfl
  refine ⟨h.1, h2.1, ?_⟩
  exact (h2.2.2.2.1 (by decide)).1

theorem stringData_append (a b : String) : (a ++ b).data = a.data ++ b.data := by
  cases a; cases b; rfl

theorem hasSub_cons {x l : List Char} (c : Char) (h : hasSub x l) : hasSub x (c :: l) := by
  rcases h with ⟨s, t, rfl⟩
  exact ⟨c :: s, t, rfl⟩

theorem hasSub_append_right {x r : List Char} (l : List Char) (h : hasSub x r) :
    hasSub x (l ++ r) := by
  rcases h with ⟨s, t, rfl⟩
  exact ⟨l ++ s, t, by simp⟩

theorem hasSub_reverse {x l : List Char} (h : hasSub x l) : hasSub x.reverse l.reverse := by
  rcases h with ⟨s, t, rfl⟩
  exact ⟨t.reverse, s.reverse, by simp⟩

theorem collapse_cons_head {d : Char} {y : List Char} (hd : wsChar d = false) (b : Bool) :
    collapseChars (d :: y) b = d :: collapseChars y false := by
  simp [collapseChars, hd]

theorem collapse_append_last {e : Char} (he : wsChar e = false) :
    ∀ (x0 t : List Char) (b : Bool),
      collapseChars ((x0 ++ [e]) ++ t) b =
        collapseChars (x0 ++ [e]) b ++ collapseChars t false := by
  intro x0
  induction x0 with
  | nil =>
    intro t b
    simp [collapseChars, he]
  | cons c x1 ih =>
    intro t b
    by_cases hc : wsChar c
    · by_cases hb : b
      · have h1 : collapseChars (((c :: x1) ++ [e]) ++ t) b =
            collapseChars ((x1 ++ [e]) ++ t) true := by
          simp [collapseChars, hc, hb]
        have h2 : collapseChars ((c :: x1) ++ [e]) b = collapseChars (x1 ++ [e]) true := by
          simp [collapseChars, hc, hb]
        rw [h1, h2, ih t true]
      · have h1 : collapseChars (((c :: x1) ++ [e]) ++ t) b =
            ' ' :: collapseChars ((x1 ++ [e]) ++ t) true := by
          simp [collapseChars, hc, hb]
        have h2 : collapseChars ((c :: x1) ++ [e]) b =
            ' ' :: collapseChars (x1 ++ [e]) true := by
          simp [collapseChars, hc, hb]
        rw [h1, h2, ih t true]
        rfl
    · have h1 : collapseChars (((c :: x1) ++ [e]) ++ t) b =
          c :: collapseChars ((x1 ++ [e]) ++ t) false := by
        simp [collapseChars, hc]
      have h2 : collapseChars ((c :: x1) ++ [e]) b = c :: collapseChars (x1 ++ [e]) false := by
        simp [collapseChars, hc]
      rw [h1, h2, ih t false]
      rfl

theorem collapse_snoc {e : Char} (he : wsChar e = false) :
    ∀ (x0 : List Char) (b : Bool), collapseChars (x0 ++ [e]) b = collapseChars x0 b ++ [e] := by
  intro x0
  induction x0 with
  | nil => intro b; simp [collapseChars, he]
  | cons c x1 ih =>
    intro b
    by_cases hc : wsChar c
    · by_cases hb : b
      · have h1 : collapseChars ((c :: x1) ++ [e]) b = collapseChars (x1 ++ [e]) true := by
          simp [collapseChars, hc, hb]
        have h2 : collapseChars (c :: x1) b = collapseChars x1 true := by
          simp [collapseChars, hc, hb]
        rw [h1, h2, ih true]
      · have h1 : collapseChars ((c :: x1) ++ [e]) b =
            ' ' :: collapseChars (x1 ++ [e]) true := by
          simp [collapseChars, hc, hb]
        have h2 : collapseChars (c :: x1) b = ' ' :: collapseChars x1 true := by
          simp [collapseChars, hc, hb]
        rw [h1, h2, ih true]
        rfl
    · have h1 : collapseChars ((c :: x1) ++ [e]) b = c :: collapseChars (x1 ++ [e]) false := by
        simp [collapseChars, hc]
      have h2 : collapseChars (c :: x1) b = c :: collapseChars x1 false := by
        simp [collapseChars, hc]
      rw [h1, h2, ih false]
      rfl

theorem hasSub_collapse_region {x : List Char}
    (hh : ∀ d y, x = d :: y → wsChar d = false)
    (hl : ∀ d y, x = y ++ [d] → wsChar d = false)
    (hne : x ≠ []) :
    ∀ (s t : List Char) (b : Bool),
      hasSub (collapseChars x false) (collapseChars (s ++ (x ++ t)) b) := by
  have hbfree : ∀ b2 : Bool, collapseChars x b2 = collapseChars x false := by
    intro b2
    rcases hx : x with _ | ⟨d, y⟩
    · rfl
    · rw [collapse_cons_head (hh d y hx) b2, collapse_cons_head (hh d y hx) false]
  rcases List.eq_nil_or_concat x with rfl | ⟨x0, e, hxe⟩
  · exact absurd rfl hne
  · rw [List.concat_eq_append] at hxe
    have he : wsChar e = false := hl e x0 hxe
    have hkey : ∀ (t2 : List Char) (b2 : Bool),
        collapseChars (x ++ t2) b2 = collapseChars x false ++ collapseChars t2 false := by
      intro t2 b2
      have hb2 := hbfree b2
      rw [hxe] at hb2 ⊢
      rw [collapse_append_last he x0 t2 b2, hb2]
    intro s t b
    induction s generalizing b with
    | nil =>
      have hnil : (([] : List Char) ++ (x ++ t)) = x ++ t := by simp
      rw [hnil, hkey t b]
      exact ⟨[], collapseChars t false, rfl⟩
    | cons c s1 ih =>
      by_cases hc : wsChar c
      · by_cases hb : b
        · have h1 : collapseChars ((c :: s1) ++ (x ++ t)) b =
              collapseChars (s1 ++ (x ++ t)) true := by
            simp [collapseChars, hc, hb]
          rw [h1]
          exact ih true
        · have h1 : collapseChars ((c :: s1) ++ (x ++ t)) b =
              ' ' :: collapseChars (s1 ++ (x ++ t)) true := by
            simp [collapseChars, hc, hb]
          rw [h1]
          exact hasSub_cons ' ' (ih true)
      · have h1 : collapseChars ((c :: s1) ++ (x ++ t)) b =
            c :: collapseChars (s1 ++ (x ++ t)) false := by
          simp [collapseChars, hc]
        rw [h1]
        exact hasSub_cons c (ih false)

theorem hasSub_dropWhile_aux {x t : List Char}
    (hh : ∀ d y, x = d :: y → wsChar d = false) :
    ∀ s : List Char, hasSub x (List.dropWhile wsChar (s ++ (x ++ t))) := by
  intro s
  induction s with
  | nil =>
    rcases hx : x with _ | ⟨d, x1⟩
    · exact ⟨[], List.dropWhile wsChar ([] ++ ([] ++ t)), by simp⟩
    · have hd : wsChar d = false := hh d x1 hx
      have heq : List.dropWhile wsChar ([] ++ ((d :: x1) ++ t)) = (d :: x1) ++ t := by
        simp [List.dropWhile_cons, hd]
      exact ⟨[], t, by rw [heq]; rfl⟩
  | cons c s1 ih =>
    by_cases hc : wsChar c
    · have heq : List.dropWhile wsChar ((c :: s1) ++ (x ++ t)) =
          List.dropWhile wsChar (s1 ++ (x ++ t)) := by
        simp [List.dropWhile_cons, hc]
      rw [heq]
      exact ih
    · have heq : List.dropWhile wsChar ((c :: s1) ++ (x ++ t)) = (c :: s1) ++ (x ++ t) := by
        simp [List.dropWhile_cons, hc]
      rw [heq]
      exact ⟨c :: s1, t, rfl⟩

theorem hasSub_dropWhile {x l : List Char}
    (hh : ∀ d y, x = d :: y → wsChar d = false)
    (h : hasSub x l) : hasSub x (List.dropWhile wsChar l) := by
  rcases h with ⟨s, t, rfl⟩
  exact hasSub_dropWhile_aux hh s

theorem hasSub_trim {x l : List Char}
    (hh : ∀ d y, x = d :: y → wsChar d = false)
    (hl : ∀ d y, x = y ++ [d] → wsChar d = false)
    (h : hasSub x l) : hasSub x (trimChars l) := by
  have hhr : ∀ d y, x.reverse = d :: y → wsChar d = false := by
    intro d y hrev
    apply hl d y.reverse
    have hx2 : x = (d :: y).reverse := by rw [← hrev, List.reverse_reverse]
    rw [hx2, List.reverse_cons]
  have h1 := hasSub_dropWhile hh h
  have h2 := hasSub_reverse h1
  have h3 := hasSub_dropWhile hhr h2
  have h4 := hasSub_reverse h3
  rw [List.reverse_reverse] at h4
  exact h4

theorem isPreB_iff : ∀ (x l : List Char), isPreB x l = true ↔ hasPre x l := by
  intro x
  induction x with
  | nil => intro l; simp [isPreB, hasPre]
  | cons a x1 ih =>
    intro l
    rcases l with _ | ⟨b0, l1⟩
    · constructor
      · intro h; exact absurd h (by simp [isPreB])
      · intro h; rcases h with ⟨t, ht⟩; exact absurd ht (by simp)
    · constructor
      · intro h
        have hab : a = b0 ∧ isPreB x1 l1 = true := by
          simpa [isPreB, Bool.and_eq_true] using h
        rcases (ih l1).1 hab.2 with ⟨t, ht⟩
        exact ⟨t, by rw [← hab.1, ht]; rfl⟩
      · intro h
        rcases h with ⟨t, ht⟩
        rw [List.cons_append] at ht
        injection ht with h1 h2
        rw [h1, h2]
        show isPreB (a :: x1) (a :: (x1 ++ t)) = true
        simp only [isPreB, beq_self_eq_true, Bool.true_and]
        exact (ih (x1 ++ t)).2 ⟨t, rfl⟩

theorem hasSubB_iff : ∀ (l x : List Char), hasSubB x l = true ↔ hasSub x l := by
  intro l
  induction l with
  | nil =>
    intro x
    show isPreB x [] = true ↔ hasSub x []
    constructor
    · intro h
      rcases x with _ | ⟨a, x1⟩
      · exact ⟨[], [], rfl⟩
      · exact absurd h (by simp [isPreB])
    · intro h
      rcases h with ⟨s, t, ht⟩
      have hs := List.append_eq_nil.1 ht.symm
      have hx0 : x = [] := (List.append_eq_nil.1 hs.2).1
      rw [hx0]
      rfl
  | cons c rest ih =>
    intro x
    show (isPreB x (c :: rest) || hasSubB x rest) = true ↔ hasSub x (c :: rest)
    rw [Bool.or_eq_true, isPreB_iff, ih]
    constructor
    · intro h
      rcases h with h | h
      · rcases h with ⟨t, ht⟩
        exact ⟨[], t, by rw [ht]; rfl⟩
      · exact hasSub_cons c h
    · intro h
      rcases h with ⟨s, t, ht⟩
      rcases s with _ | ⟨s0, s1⟩
      · exact Or.inl ⟨t, by simpa using ht⟩
      · rw [List.cons_append] at ht
        injection ht with h1 h2
        exact Or.inr ⟨s1, t, h2⟩

theorem hasSub_joinSpace :
    ∀ (l : List String) (x : String), x ∈ l → hasSub x.data (joinSpace l).data := by
  intro l
  induction l with
  | nil => intro x hx; simp at hx
  | cons s rest ih =>
    intro x hx
    rcases rest with _ | ⟨r, rest2⟩
    · have hxs : x = s := by simpa using hx
      exact ⟨[], [], by simp [hxs, joinSpace]⟩
    · have hdata : (joinSpace (s :: r :: rest2)).data =
          (s.data ++ [' ']) ++ (joinSpace (r :: rest2)).data := by
        show (s ++ " " ++ joinSpace (r :: rest2)).data = _
        rw [stringData_append, stringData_append]
      rcases List.mem_cons.1 hx with hxs | hxr
      · exact ⟨[], [' '] ++ (joinSpace (r :: rest2)).data, by simp [hdata, hxs]⟩
      · rw [hdata]
        exact hasSub_append_right _ (ih x hxr)

theorem filter_nonWs_collapse :
    ∀ (l : List Char) (b : Bool),
      (collapseChars l b).filter (fun c => !wsChar c) = l.filter (fun c => !wsChar c) := by
  intro l
  induction l with
  | nil => intro b; rfl
  | cons c rest ih =>
    intro b
    by_cases hc : wsChar c
    · by_cases hb : b
      · have h1 : collapseChars (c :: rest) b = collapseChars rest true := by
          simp [collapseChars, hc, hb]
        rw [h1, ih true, List.filter_cons]
        simp [hc]
      · have h1 : collapseChars (c :: rest) b = ' ' :: collapseChars rest true := by
          simp [collapseChars, hc, hb]
        rw [h1, List.filter_cons, List.filter_cons]
        simp [hc, show wsChar ' ' = true from rfl, ih true]
    · have h1 : collapseChars (c :: rest) b = c :: collapseChars rest false := by
        simp [collapseChars, hc]
      rw [h1, List.filter_cons, List.filter_cons]
      simp [hc, ih false]

theorem filter_nonWs_dropWhile :
    ∀ l : List Char,
      (l.dropWhile wsChar).filter (fun c => !wsChar c) = l.filter (fun c => !wsChar c) := by
  intro l
  induction l with
  | nil => rfl
  | cons c rest ih =>
    by_cases hc : wsChar c
    · simp [List.dropWhile_cons, hc, List.filter_cons, ih]
    · simp [List.dropWhile_cons, hc, List.filter_cons]

theorem filter_nonWs_trim (l : List Char) :
    (trimChars l).filter (fun c => !wsChar c) = l.filter (fun c => !wsChar c) := by
  show (((l.dropWhile wsChar).reverse.dropWhile wsChar).reverse.filter (fun c => !wsChar c)) = _
  rw [List.filter_reverse, filter_nonWs_dropWhile, List.filter_reverse,
    List.reverse_reverse, filter_nonWs_dropWhile]

theorem rawQuery_data (notes : NoteSet) :
    (rawQuery notes).data =
      ((((joinSpace (notes.top.take 3)).data ++ [' ']) ++
          ((joinSpace (notes.middle.take 3)).data ++ [' '])) ++
        (joinSpace (notes.base.take 3)).data) ++ (" perfume with price" : String).data := by
  show ((((joinSpace (notes.top.take 3) ++ " ") ++ joinSpace (notes.middle.take 3) ++ " ") ++
      joinSpace (notes.base.take 3)) ++ " perfume with price").data = _
  simp only [stringData_append]
  simp

theorem mainQuery_length (notes : NoteSet) :
    16 ≤ (jsTrim (jsCollapseWs (rawQuery notes))).length := by
  have hds : (jsTrim (jsCollapseWs (rawQuery notes))).length =
      (trimChars (collapseChars (rawQuery notes).data false)).length := rfl
  rw [hds]
  have h1 := List.length_filter_le (fun c => !wsChar c)
    (trimChars (collapseChars (rawQuery notes).data false))
  have h2 : (trimChars (collapseChars (rawQuery notes).data false)).filter
      (fun c => !wsChar c) = ((rawQuery notes).data).filter (fun c => !wsChar c) := by
    rw [filter_nonWs_trim, filter_nonWs_collapse]
  have h3 : 16 ≤ (((rawQuery notes).data).filter (fun c => !wsChar c)).length := by
    have hsplit : ((rawQuery notes).data).filter (fun c => !wsChar c) =
        (((((joinSpace (notes.top.take 3)).data ++ [' ']) ++
            ((joinSpace (notes.middle.take 3)).data ++ [' '])) ++
          (joinSpace (notes.base.take 3)).data).filter (fun c => !wsChar c)) ++
        ((" perfume with price" : String).data).filter (fun c => !wsChar c) := by
      rw [rawQuery_data, List.filter_append]
    rw [hsplit, List.length_append]
    have h4 : (((" perfume with price" : String).data).filter
        (fun c => !wsChar c)).length = 16 := by decide
    omega
  rw [h2] at h1
  omega

theorem buildQuery_eq_main (notes : NoteSet) :
    buildPerfumeQueryFromNotes notes = jsTrim (jsCollapseWs (rawQuery notes)) := by
  have h16 := mainQuery_length notes
  show (if (jsTrim (jsCollapseWs (rawQuery notes))).length < 10 then
      joinSpace notes.middle ++ " perfume" else jsTrim (jsCollapseWs (rawQuery notes))) = _
  rw [if_neg (by omega)]

/-- C4 counterexample: for the Note Set with the single note
`"rose  petal"` (double internal space), the built query is
`"rose petal perfume with price"` — whitespace collapsing rewrites the
note, so the query contains no entry of the non-empty bucket, refuting
"the returned query contains at least one note". -/
theorem buildQuery_note_containment_cex :
    buildPerfumeQueryFromNotes ⟨["rose  petal"], [], []⟩ =
      "rose petal perfume with price" ∧
    (⟨["rose  petal"], [], []⟩ : NoteSet).top ≠ [] ∧
    ¬ hasSub ("rose  petal" : String).data
        (buildPerfumeQueryFromNotes ⟨["rose  petal"], [], []⟩).data := by
  have h1 : buildPerfumeQueryFromNotes ⟨["rose  petal"], [], []⟩ =
      "rose petal perfume with price" := by decide
  refine ⟨h1, by decide, ?_⟩
  rw [h1]
  intro h
  have hb := (hasSubB_iff ("rose petal perfume with price" : String).data
    ("rose  petal" : String).data).2 h
  exact absurd hb (by decide)

set_option maxHeartbeats 1000000 in
/-- Core of the amended C4: every bucket entry among the first 3 whose
first and last characters are not whitespace occurs, in whitespace-collapsed
form, inside the built query. -/
theorem buildQuery_contains_collapsed :
    ∀ (notes : NoteSet) (x : String),
      (x ∈ notes.top.take 3 ∨ x ∈ notes.middle.take 3 ∨ x ∈ notes.base.take 3) →
      x.data.head?.all (fun c => !wsChar c) = true →
      x.data.getLast?.all (fun c => !wsChar c) = true →
      hasSub (collapseChars x.data false) (buildPerfumeQueryFromNotes notes).data := by
  intro notes x hx hh0 hl0
  have heq := buildQuery_eq_main notes
  by_cases hnil : x.data = []
  · exact ⟨[], (buildPerfumeQueryFromNotes notes).data, by rw [hnil]; rfl⟩
  · obtain ⟨d, y, hxd⟩ := List.exists_cons_of_ne_nil hnil
    have hd : wsChar d = false := by
      have hhead : x.data.head? = some d := by rw [hxd]; rfl
      rw [hhead] at hh0
      simpa using hh0
    have hh : ∀ d2 y2, x.data = d2 :: y2 → wsChar d2 = false := by
      intro d2 y2 h2
      rw [hxd] at h2
      injection h2 with h3 _
      rw [← h3]
      exact hd
    rcases List.eq_nil_or_concat x.data with h0 | ⟨x0, e, hxe⟩
    · exact absurd h0 hnil
    · rw [List.concat_eq_append] at hxe
      have hge : x.data.getLast? = some e := by
        rw [hxe]
        exact List.getLast?_concat x0
      have he : wsChar e = false := by
        rw [hge] at hl0
        simpa using hl0
      have hl : ∀ d2 y2, x.data = y2 ++ [d2] → wsChar d2 = false := by
        intro d2 y2 h2
        have h3 : x.data.getLast? = some d2 := by
          rw [h2]
          exact List.getLast?_concat y2
        rw [hge] at h3
        injection h3 with h4
        rw [← h4]
        exact he
      have hraw : hasSub x.data (rawQuery notes).data := by
        rw [rawQuery_data]
        rcases hx with hx | hx | hx
        · rcases hasSub_joinSpace (notes.top.take 3) x hx with ⟨s, t, hj⟩
          refine ⟨s, t ++ ([' '] ++ (((joinSpace (notes.middle.take 3)).data ++ [' ']) ++
            (joinSpace (notes.base.take 3)).data ++ (" perfume with price" : String).data)),
            ?_⟩
          rw [hj]
          simp
        · rcases hasSub_joinSpace (notes.middle.take 3) x hx with ⟨s, t, hj⟩
          refine ⟨((joinSpace (notes.top.take 3)).data ++ [' ']) ++ s,
            t ++ ([' '] ++ ((joinSpace (notes.base.take 3)).data ++
              (" perfume with price" : String).data)), ?_⟩
          rw [hj]
          simp
        · rcases hasSub_joinSpace (notes.base.take 3) x hx with ⟨s, t, hj⟩
          refine ⟨(((joinSpace (notes.top.take 3)).data ++ [' ']) ++
            ((joinSpace (notes.middle.take 3)).data ++ [' '])) ++ s,
            t ++ (" perfume with price" : String).data, ?_⟩
          rw [hj]
          simp
      rcases hraw with ⟨s, t, hq⟩
      have hcoll : hasSub (collapseChars x.data false)
          (collapseChars (rawQuery notes).data false) := by
        rw [hq]
        exact hasSub_collapse_region hh hl hnil s t false
      have hhc : ∀ d2 y2, collapseChars x.data false = d2 :: y2 → wsChar d2 = false := by
        intro d2 y2 h2
        rw [hxd, collapse_cons_head hd false] at h2
        injection h2 with h3 _
        rw [← h3]
        exact hd
      have hlc : ∀ d2 y2, collapseChars x.data false = y2 ++ [d2] → wsChar d2 = false := by
        intro d2 y2 h2
        have h5 : collapseChars x.data false = collapseChars x0 false ++ [e] := by
          rw [hxe]
          exact collapse_snoc he x0 false
        rw [h5] at h2
        have h6 : (collapseChars x0 false ++ [e]).getLast? = (y2 ++ [d2]).getLast? := by
          rw [h2]
        rw [List.getLast?_concat, List.getLast?_concat] at h6
        injection h6 with h7
        rw [← h7]
        exact he
      have htrim := hasSub_trim hhc hlc hcoll
      rw [heq]
      exact htrim

/-- C4 (amended): the query builder joins the first 3 entries of each
bucket with "perfume with price" and collapses/trims whitespace; the
fallback condition (query shorter than 10 characters) can never hold,
because the collapsed and trimmed string always retains the 16
non-whitespace characters of "perfume with price" — so the result is
never empty; and for every entry among the first 3 of any bucket that
starts and ends with a non-whitespace character (the Note Set invariant),
the query contains the entry's whitespace-collapsed form — the entry
itself whenever its internal whitespace is already collapsed, in
particular for every single-word or single-spaced multi-word note. -/
theorem buildQuery_amended :
    ∀ notes : NoteSet,
      buildPerfumeQueryFromNotes notes = jsTrim (jsCollapseWs (rawQuery notes)) ∧
      10 ≤ (jsTrim (jsCollapseWs (rawQuery notes))).length ∧
      buildPerfumeQueryFromNotes notes ≠ "" ∧
      (∀ x : String,
        (x ∈ notes.top.take 3 ∨ x ∈ notes.middle.take 3 ∨ x ∈ notes.base.take 3) →
        x.data.head?.all (fun c => !wsChar c) = true →
        x.data.getLast?.all (fun c => !wsChar c) = true →
        hasSub (collapseChars x.data false) (buildPerfumeQueryFromNotes notes).data ∧
        (collapseChars x.data false = x.data →
          hasSub x.data (buildPerfumeQueryFromNotes notes).data)) ∧
      buildPerfumeQueryFromNotes ⟨["bergamot", "lemon"], [], ["musk"]⟩ =
        "bergamot lemon musk perfume with price" := by
  intro notes
  have heq := buildQuery_eq_main notes
  have hlen := mainQuery_length notes
  refine ⟨heq, by omega, ?_, ?_, by decide⟩
  · intro hempty
    have hzero : (buildPerfumeQueryFromNotes notes).length = 0 := by rw [hempty]; rfl
    rw [heq] at hzero
    omega
  · intro x hx hh0 hl0
    refine ⟨buildQuery_contains_collapsed notes x hx hh0 hl0, fun hcx => ?_⟩
    rw [← hcx]
    exact buildQuery_contains_collapsed notes x hx hh0 hl0

example : hasSubB ("lily of the valley" : String).data
    (buildPerfumeQueryFromNotes ⟨[], ["lily of the valley"], []⟩).data = true := by decide

theorem buildQuery_amended_witness :
    hasSub ("musk" : String).data
      (buildPerfumeQueryFromNotes ⟨["bergamot", "lemon"], [], ["musk"]⟩).data :=
  ((buildQuery_amended ⟨["bergamot", "lemon"], [], ["musk"]⟩).2.2.2.1 "musk"
    (Or.inr (Or.inr (by decide))) (by decide) (by decide)).2 (by decide)
